import Mathlib

/-!
Shallow embedding of the woox order-book program (src/main.rs and
src/orderbook.rs) and proofs about it.

Rust f64 prices and quantities are modelled as rationals: every property
below depends only on equality and order comparisons of finite values, on
which the OrderedFloat total order used by the Rust code agrees with the
rational order.  A BTreeMap from prices to quantities is modelled as an
association list whose keys are strictly increasing, which is exactly the
iteration order of the Rust map.  The u64 sequence fields are modelled as
naturals, with wrapping subtraction made explicit where it matters.
-/

open List

namespace Woox

/-- Quote parsed from the websocket wire encoding (main.rs, WsQuote). -/
structure WsQuote where
  price : ℚ
  quantity : ℚ
deriving DecidableEq

/-- Quote parsed from the REST snapshot encoding (main.rs, RestQuote). -/
structure RestQuote where
  price : ℚ
  quantity : ℚ
deriving DecidableEq

/-- Map entry form of a REST quote, as apply_snapshot stores it. -/
def RestQuote.entry (q : RestQuote) : ℚ × ℚ := (q.price, q.quantity)

/-- Payload of the REST snapshot (main.rs, SnapshotData). -/
structure SnapshotData where
  bids : List RestQuote
  asks : List RestQuote
deriving DecidableEq

/-- REST snapshot response (main.rs, RestSnapshot). -/
structure RestSnapshot where
  timestamp : ℕ
  data : SnapshotData
deriving DecidableEq

/-- Websocket delta payload (main.rs, OrderBookDelta). -/
structure OrderBookDelta where
  symbol : String
  prev_ts : ℕ
  bids : List WsQuote
  asks : List WsQuote
deriving DecidableEq

/-- Event forwarded from the reader thread to the synchronizer
(main.rs, MarketEvent). -/
structure MarketEvent where
  ts : ℕ
  prev_ts : ℕ
  delta : OrderBookDelta
deriving DecidableEq

/-- Insertion into a key-sorted association list: the model of
BTreeMap::insert restricted to the map iteration order.  An equal key is
replaced, otherwise the entry lands at its ordered position. -/
def insertLevel (p q : ℚ) : List (ℚ × ℚ) → List (ℚ × ℚ)
  | [] => [(p, q)]
  | (p₁, q₁) :: rest =>
    if p < p₁ then (p, q) :: (p₁, q₁) :: rest
    else if p = p₁ then (p, q) :: rest
    else (p₁, q₁) :: insertLevel p q rest

/-- Removal from an association list: the model of BTreeMap::remove
(on a key-sorted list the first hit is the only one). -/
def removeLevel (p : ℚ) : List (ℚ × ℚ) → List (ℚ × ℚ)
  | [] => []
  | (p₁, q₁) :: rest => if p = p₁ then rest else (p₁, q₁) :: removeLevel p rest

/-- Lookup in an association list: the model of BTreeMap::get. -/
def lookupLevel (p : ℚ) : List (ℚ × ℚ) → Option ℚ
  | [] => none
  | (p₁, q₁) :: rest => if p = p₁ then some q₁ else lookupLevel p rest

/-- Strictly increasing keys: the invariant a BTreeMap maintains
structurally, stated on the association-list model. -/
abbrev SortedSide (side : List (ℚ × ℚ)) : Prop :=
  side.Pairwise (fun a b => a.1 < b.1)

/-- Order book held by the synchronizer (orderbook.rs, LocalOrderBook):
bid and ask sides in ascending key order. -/
structure LocalOrderBook where
  bids : List (ℚ × ℚ)
  asks : List (ℚ × ℚ)
deriving DecidableEq

/-- Empty book (orderbook.rs, LocalOrderBook::new). -/
def LocalOrderBook.new : LocalOrderBook := ⟨[], []⟩

/-- One side of apply_snapshot: every level inserted unconditionally into
a cleared side (orderbook.rs lines 21-30). -/
def applySnapshotSide (levels : List RestQuote) : List (ℚ × ℚ) :=
  levels.foldl (fun side q => insertLevel q.price q.quantity side) []

/-- orderbook.rs, apply_snapshot: clears both sides, then inserts every
snapshot level unconditionally (no zero-quantity filtering). -/
def LocalOrderBook.apply_snapshot (_b : LocalOrderBook) (data : SnapshotData) :
    LocalOrderBook :=
  ⟨applySnapshotSide data.bids, applySnapshotSide data.asks⟩

/-- Body of the per-quote loops in orderbook.rs, apply_delta: quantity
zero removes the price, any other quantity inserts or replaces it. -/
def applyDeltaQuote (side : List (ℚ × ℚ)) (q : WsQuote) : List (ℚ × ℚ) :=
  if q.quantity = 0 then removeLevel q.price side
  else insertLevel q.price q.quantity side

/-- One side of apply_delta: the per-quote loop folded over the levels of
that side only (orderbook.rs lines 36-50). -/
def applyDeltaSide (side : List (ℚ × ℚ)) (levels : List WsQuote) : List (ℚ × ℚ) :=
  levels.foldl applyDeltaQuote side

/-- orderbook.rs, apply_delta: each side updated from its own level list. -/
def LocalOrderBook.apply_delta (b : LocalOrderBook) (delta : OrderBookDelta) :
    LocalOrderBook :=
  ⟨applyDeltaSide b.bids delta.bids, applyDeltaSide b.asks delta.asks⟩

/-- Bid rows read by print_top_5 (orderbook.rs line 60), with the constant
5 generalized to n: reversed map iteration (descending price), then
truncation to n entries. -/
def topBids (b : LocalOrderBook) (n : ℕ) : List (ℚ × ℚ) := b.bids.reverse.take n

/-- Ask rows read by print_top_5 (orderbook.rs line 61), with the constant
5 generalized to n: map iteration order (ascending price), truncated. -/
def topAsks (b : LocalOrderBook) (n : ℕ) : List (ℚ × ℚ) := b.asks.take n

/-- Synchronizer phases of process_orderbook: reconciling is the loop with
synced still false, synced is the steady state, aborted is the early
return on a detected gap. -/
inductive SyncState where
  | reconciling
  | synced
  | aborted
deriving DecidableEq

/-- Event loop of process_orderbook (main.rs lines 187-209).  In the
reconciling phase an event older than the snapshot is dropped, an exactly
matching event is applied and flips the state to synced, a newer event
aborts, returning immediately so no later event is processed; in the
synced phase every event is applied unconditionally. -/
def processEvents (snapTs : ℕ) (s : SyncState) (b : LocalOrderBook) :
    List MarketEvent → SyncState × LocalOrderBook
  | [] => (s, b)
  | e :: rest =>
    match s with
    | .aborted => (.aborted, b)
    | .synced => processEvents snapTs .synced (b.apply_delta e.delta) rest
    | .reconciling =>
      if e.prev_ts < snapTs then processEvents snapTs .reconciling b rest
      else if e.prev_ts = snapTs then
        processEvents snapTs .synced (b.apply_delta e.delta) rest
      else (.aborted, b)

/-- main.rs, process_orderbook, after the snapshot fetch: a fresh book
receives the snapshot, then the events are reconciled. -/
def processOrderbook (snapshot : RestSnapshot) (events : List MarketEvent) :
    SyncState × LocalOrderBook :=
  processEvents snapshot.timestamp .reconciling
    (LocalOrderBook.new.apply_snapshot snapshot.data) events

/-- Wrapping u64 subtraction on naturals below 2 to the 64. -/
def u64sub (a b : ℕ) : ℕ := (a + 2 ^ 64 - b) % 2 ^ 64

/-- Lag logged in the drop branch of process_orderbook (main.rs line 190),
computed as the u64 subtraction snapshot.timestamp - event.prev_ts. -/
def streamLag (snapTs prevTs : ℕ) : ℕ := u64sub snapTs prevTs

/-- Numeric value of a digit string (most significant digit first). -/
def digitsVal (cs : List Char) : ℕ :=
  cs.foldl (fun n c => 10 * n + (c.toNat - 48)) 0

/-- Unsigned part of a decimal literal: an integer part, optionally a dot
and a fractional part, at least one digit overall. -/
def parseUnsigned (cs : List Char) : Option ℚ :=
  let ip := cs.takeWhile (fun c => c != '.')
  let rest := cs.dropWhile (fun c => c != '.')
  if ip.all Char.isDigit then
    match rest with
    | [] => if ip = [] then none else some (digitsVal ip)
    | _ :: frac =>
      if frac.all Char.isDigit ∧ (ip ≠ [] ∨ frac ≠ []) then
        some ((digitsVal ip : ℚ) + (digitsVal frac : ℚ) / (10 : ℚ) ^ frac.length)
      else none
  else none

/-- Model of str::parse on f64 for plain decimal literals: optional sign,
digits, optional fraction; any other content is rejected.  Exponent,
infinity and NaN spellings accepted by Rust do not occur in the feed the
program parses and are outside the model. -/
def parseF64 (s : String) : Option ℚ :=
  match s.toList with
  | '-' :: cs => (parseUnsigned cs).map (fun x => -x)
  | '+' :: cs => parseUnsigned cs
  | cs => parseUnsigned cs

/-- Manual Deserialize impl of WsQuote (main.rs lines 31-44): the input is
the already-decoded JSON array of strings; fewer than two elements or a
non-numeric element fail the record. -/
def wsQuoteDeserialize (s : List String) : Except String WsQuote :=
  match s with
  | p :: q :: _ =>
    match parseF64 p, parseF64 q with
    | some price, some quantity => .ok ⟨price, quantity⟩
    | _, _ => .error "invalid float"
  | _ => .error "WsQuote array too short"

/-- main.rs, f64_from_string: parse a JSON string field to a float. -/
def f64_from_string (s : String) : Except String ℚ :=
  match parseF64 s with
  | some v => .ok v
  | none => .error "invalid float"

/-- Derived Deserialize of RestQuote (main.rs lines 55-61): both string
fields parsed through f64_from_string, any failure failing the record. -/
def restQuoteDeserialize (r : String × String) : Except String RestQuote :=
  match f64_from_string r.1 with
  | .error e => .error e
  | .ok price =>
    match f64_from_string r.2 with
    | .error e => .error e
    | .ok quantity => .ok ⟨price, quantity⟩

/-- Serde sequence deserialization as derived for a Vec field: elements in
order, the first failing element aborting the whole sequence. -/
def deserializeSeq {α β : Type} (f : α → Except String β) :
    List α → Except String (List β)
  | [] => .ok []
  | x :: xs =>
    match f x with
    | .error e => .error e
    | .ok y =>
      match deserializeSeq f xs with
      | .error e => .error e
      | .ok ys => .ok (y :: ys)

/-- Derived Deserialize of SnapshotData (main.rs lines 76-80): both quote
vectors deserialized element by element, all or nothing. -/
def snapshotDataDeserialize (bids asks : List (String × String)) :
    Except String SnapshotData :=
  match deserializeSeq restQuoteDeserialize bids with
  | .error e => .error e
  | .ok bs =>
    match deserializeSeq restQuoteDeserialize asks with
    | .error e => .error e
    | .ok aq => .ok ⟨bs, aq⟩

/-- Derived Deserialize of OrderBookDelta (main.rs lines 65-73): both
quote vectors deserialized element by element, all or nothing. -/
def orderBookDeltaDeserialize (symbol : String) (prevTs : ℕ)
    (bids asks : List (List String)) : Except String OrderBookDelta :=
  match deserializeSeq wsQuoteDeserialize bids with
  | .error e => .error e
  | .ok bs =>
    match deserializeSeq wsQuoteDeserialize asks with
    | .error e => .error e
    | .ok aq => .ok ⟨symbol, prevTs, bs, aq⟩

/-- Books reachable as claim C2 describes them: the empty book, one
apply_snapshot with arbitrary levels, then any sequence of apply_delta
calls with arbitrary levels. -/
inductive Reachable : LocalOrderBook → Prop where
  | snapshot (d : SnapshotData) : Reachable (LocalOrderBook.new.apply_snapshot d)
  | delta (b : LocalOrderBook) (d : OrderBookDelta) :
      Reachable b → Reachable (b.apply_delta d)

/-- Reachability restricted to well-formed inputs: snapshot levels carry
strictly positive quantities and delta levels carry nonnegative
quantities (zero meaning deletion). -/
inductive PosReachable : LocalOrderBook → Prop where
  | snapshot (d : SnapshotData)
      (hb : ∀ q ∈ d.bids, 0 < q.quantity) (ha : ∀ q ∈ d.asks, 0 < q.quantity) :
      PosReachable (LocalOrderBook.new.apply_snapshot d)
  | delta (b : LocalOrderBook) (d : OrderBookDelta)
      (hb : ∀ q ∈ d.bids, 0 ≤ q.quantity) (ha : ∀ q ∈ d.asks, 0 ≤ q.quantity) :
      PosReachable b → PosReachable (b.apply_delta d)

/-- Snapshot of the scenarios in the spec: sequence 100, one bid at price
100, one ask at price 101, quantity 1 each. -/
def sampleSnapshot : SnapshotData := ⟨[⟨100, 1⟩], [⟨101, 1⟩]⟩

/-- Book obtained by applying the scenario snapshot to the empty book. -/
def sampleBook : LocalOrderBook := LocalOrderBook.new.apply_snapshot sampleSnapshot

/-- Delta clearing the bid at price 100 (scenario B of the spec). -/
def sampleDeltaClear : OrderBookDelta := ⟨"PERP_ETH_USDT", 100, [⟨100, 0⟩], []⟩

/-- Event with predecessor sequence 99 (scenario A: stale). -/
def event99 : MarketEvent := ⟨99, 99, ⟨"PERP_ETH_USDT", 99, [⟨100, 2⟩], []⟩⟩

/-- Event with predecessor sequence 100 (scenario B: exact continuity). -/
def event100 : MarketEvent := ⟨101, 100, sampleDeltaClear⟩

/-- Event with predecessor sequence 101 (scenario C: gap). -/
def event101 : MarketEvent := ⟨102, 101, ⟨"PERP_ETH_USDT", 101, [⟨100, 3⟩], []⟩⟩

/-- Snapshot holding a zero-quantity bid level. -/
def snapshotZeroQty : SnapshotData := ⟨[⟨100, 0⟩], []⟩

/-- Book produced from the zero-quantity snapshot: reachable, yet it
stores a level whose quantity is 0. -/
def bookZeroQty : LocalOrderBook := LocalOrderBook.new.apply_snapshot snapshotZeroQty

/-- Snapshot whose bid side repeats the price 100 with two quantities. -/
def snapshotDupPrice : SnapshotData := ⟨[⟨100, 1⟩, ⟨100, 2⟩], []⟩

/-- Book holding a bid at price 50 before a snapshot is applied. -/
def bookBefore : LocalOrderBook := ⟨[(50, 1)], []⟩

/-- Book produced by applying the duplicate-price snapshot. -/
def bookDupPrice : LocalOrderBook := bookBefore.apply_snapshot snapshotDupPrice

/-- Failure indicator of a deserialization result. -/
def isError {β : Type} : Except String β → Bool
  | .error _ => true
  | .ok _ => false

theorem mem_insertLevel {p q : ℚ} {x : ℚ × ℚ} :
    ∀ {side : List (ℚ × ℚ)}, x ∈ insertLevel p q side → x = (p, q) ∨ x ∈ side := by
  intro side
  induction side with
  | nil =>
    intro h
    simp only [insertLevel, List.mem_singleton] at h
    exact Or.inl h
  | cons a rest ih =>
    obtain ⟨p₁, q₁⟩ := a
    intro h
    simp only [insertLevel] at h
    split_ifs at h with h₁ h₂
    · rcases List.mem_cons.mp h with h | h
      · exact Or.inl h
      · exact Or.inr h
    · rcases List.mem_cons.mp h with h | h
      · exact Or.inl h
      · exact Or.inr (List.mem_cons_of_mem _ h)
    · rcases List.mem_cons.mp h with h | h
      · exact Or.inr (by rw [h]; exact List.mem_cons_self _ _)
      · rcases ih h with h | h
        · exact Or.inl h
        · exact Or.inr (List.mem_cons_of_mem _ h)

theorem insertLevel_sorted {p q : ℚ} :
    ∀ {side : List (ℚ × ℚ)}, SortedSide side → SortedSide (insertLevel p q side) := by
  intro side
  induction side with
  | nil =>
    intro _
    simp [insertLevel, SortedSide]
  | cons a rest ih =>
    obtain ⟨p₁, q₁⟩ := a
    intro hs
    simp only [SortedSide, List.pairwise_cons] at hs
    obtain ⟨hhead, htail⟩ := hs
    simp only [insertLevel]
    split_ifs with h₁ h₂
    · simp only [SortedSide, List.pairwise_cons]
      refine ⟨fun x hx => ?_, fun x hx => hhead x hx, htail⟩
      rcases List.mem_cons.mp hx with rfl | hx
      · exact h₁
      · exact lt_trans h₁ (hhead x hx)
    · subst h₂
      simp only [SortedSide, List.pairwise_cons]
      exact ⟨hhead, htail⟩
    · have hp : p₁ < p := lt_of_le_of_ne (not_lt.mp h₁) (Ne.symm h₂)
      simp only [SortedSide, List.pairwise_cons]
      constructor
      · intro x hx
        rcases mem_insertLevel hx with rfl | hx
        · exact hp
        · exact hhead x hx
      · exact ih htail

theorem removeLevel_sublist (p : ℚ) : ∀ side : List (ℚ × ℚ), removeLevel p side <+ side := by
  intro side
  induction side with
  | nil => simp [removeLevel]
  | cons a rest ih =>
    obtain ⟨p₁, q₁⟩ := a
    simp only [removeLevel]
    split_ifs with h
    · exact List.sublist_cons_self _ _
    · exact ih.cons₂ _

theorem removeLevel_sorted {p : ℚ} {side : List (ℚ × ℚ)} (hs : SortedSide side) :
    SortedSide (removeLevel p side) :=
  hs.sublist (removeLevel_sublist p side)

theorem lookupLevel_insert_self (p q : ℚ) :
    ∀ side : List (ℚ × ℚ), lookupLevel p (insertLevel p q side) = some q := by
  intro side
  induction side with
  | nil => simp [insertLevel, lookupLevel]
  | cons a rest ih =>
    obtain ⟨p₁, q₁⟩ := a
    simp only [insertLevel]
    split_ifs with h₁ h₂
    · simp [lookupLevel]
    · simp [lookupLevel]
    · simp [lookupLevel, h₂, ih]

theorem lookupLevel_insert_ne {p₂ p : ℚ} (hne : p₂ ≠ p) (q : ℚ) :
    ∀ side : List (ℚ × ℚ), lookupLevel p₂ (insertLevel p q side) = lookupLevel p₂ side := by
  intro side
  induction side with
  | nil => simp [insertLevel, lookupLevel, hne]
  | cons a rest ih =>
    obtain ⟨p₁, q₁⟩ := a
    simp only [insertLevel]
    split_ifs with h₁ h₂
    · simp [lookupLevel, hne]
    · subst h₂
      simp [lookupLevel, hne]
    · simp only [lookupLevel]
      split_ifs with h₃
      · rfl
      · exact ih

theorem lookupLevel_eq_none {p : ℚ} :
    ∀ {side : List (ℚ × ℚ)}, (∀ x ∈ side, x.1 ≠ p) → lookupLevel p side = none := by
  intro side
  induction side with
  | nil => intro _; simp [lookupLevel]
  | cons a rest ih =>
    intro h
    obtain ⟨p₁, q₁⟩ := a
    have h₁ : p₁ ≠ p := h (p₁, q₁) (List.mem_cons_self _ _)
    simp only [lookupLevel]
    rw [if_neg (Ne.symm h₁)]
    exact ih fun x hx => h x (List.mem_cons_of_mem _ hx)

theorem lookupLevel_remove_self (p : ℚ) :
    ∀ side : List (ℚ × ℚ), SortedSide side → lookupLevel p (removeLevel p side) = none := by
  intro side
  induction side with
  | nil => intro _; simp [removeLevel, lookupLevel]
  | cons a rest ih =>
    intro hs
    obtain ⟨p₁, q₁⟩ := a
    simp only [SortedSide, List.pairwise_cons] at hs
    obtain ⟨hhead, htail⟩ := hs
    simp only [removeLevel]
    split_ifs with h
    · subst h
      exact lookupLevel_eq_none fun x hx => ne_of_gt (hhead x hx)
    · simp only [lookupLevel]
      rw [if_neg h]
      exact ih htail

theorem lookupLevel_remove_ne {p₂ p : ℚ} (hne : p₂ ≠ p) :
    ∀ side : List (ℚ × ℚ), lookupLevel p₂ (removeLevel p side) = lookupLevel p₂ side := by
  intro side
  induction side with
  | nil => simp [removeLevel]
  | cons a rest ih =>
    obtain ⟨p₁, q₁⟩ := a
    simp only [removeLevel]
    split_ifs with h₁
    · subst h₁
      simp [lookupLevel, hne]
    · simp only [lookupLevel]
      split_ifs with h₂
      · rfl
      · exact ih

theorem removeLevel_of_lookup_none {p : ℚ} :
    ∀ side : List (ℚ × ℚ), lookupLevel p side = none → removeLevel p side = side := by
  intro side
  induction side with
  | nil => intro _; rfl
  | cons a rest ih =>
    intro h
    obtain ⟨p₁, q₁⟩ := a
    simp only [lookupLevel] at h
    split_ifs at h with h₁
    simp only [removeLevel]
    rw [if_neg h₁, ih h]

theorem mem_foldl_insert {x : ℚ × ℚ} :
    ∀ (levels : List RestQuote) (acc : List (ℚ × ℚ)),
      x ∈ levels.foldl (fun side q => insertLevel q.price q.quantity side) acc →
      x ∈ acc ∨ ∃ q ∈ levels, x = q.entry := by
  intro levels
  induction levels with
  | nil =>
    intro acc hx
    exact Or.inl (by simpa using hx)
  | cons q ls ih =>
    intro acc hx
    simp only [List.foldl_cons] at hx
    rcases ih _ hx with hacc | ⟨r, hr, hx⟩
    · rcases mem_insertLevel hacc with heq | hmem
      · exact Or.inr ⟨q, List.mem_cons_self _ _, heq⟩
      · exact Or.inl hmem
    · exact Or.inr ⟨r, List.mem_cons_of_mem _ hr, hx⟩

theorem mem_applySnapshotSide {x : ℚ × ℚ} {levels : List RestQuote}
    (hx : x ∈ applySnapshotSide levels) : ∃ q ∈ levels, x = q.entry := by
  rcases mem_foldl_insert levels [] hx with h | h
  · simp at h
  · exact h

theorem foldl_insert_sorted :
    ∀ (levels : List RestQuote) (acc : List (ℚ × ℚ)), SortedSide acc →
      SortedSide (levels.foldl (fun side q => insertLevel q.price q.quantity side) acc) := by
  intro levels
  induction levels with
  | nil => intro acc h; simpa using h
  | cons q ls ih => intro acc h; exact ih _ (insertLevel_sorted h)

theorem applySnapshotSide_sorted (levels : List RestQuote) :
    SortedSide (applySnapshotSide levels) :=
  foldl_insert_sorted levels [] List.Pairwise.nil

theorem insertLevel_perm_of_not_mem {p q : ℚ} :
    ∀ {side : List (ℚ × ℚ)}, p ∉ side.map Prod.fst →
      insertLevel p q side ~ (p, q) :: side := by
  intro side
  induction side with
  | nil => intro _; simp [insertLevel]
  | cons a rest ih =>
    obtain ⟨p₁, q₁⟩ := a
    intro h
    simp only [List.map_cons, List.mem_cons] at h
    push_neg at h
    obtain ⟨hne, hrest⟩ := h
    simp only [insertLevel]
    split_ifs with h₁
    · exact List.Perm.refl _
    · exact ((ih hrest).cons _).trans (List.Perm.swap _ _ _)

theorem mem_keys_insertLevel {p q y : ℚ} {side : List (ℚ × ℚ)}
    (hy : y ∈ (insertLevel p q side).map Prod.fst) :
    y = p ∨ y ∈ side.map Prod.fst := by
  rcases List.mem_map.mp hy with ⟨x, hx, rfl⟩
  rcases mem_insertLevel hx with rfl | hx
  · exact Or.inl rfl
  · exact Or.inr (List.mem_map_of_mem _ hx)

theorem foldl_insert_perm :
    ∀ (levels : List RestQuote) (acc : List (ℚ × ℚ)),
      (levels.map RestQuote.price).Nodup →
      (∀ q ∈ levels, q.price ∉ acc.map Prod.fst) →
      levels.foldl (fun side q => insertLevel q.price q.quantity side) acc
        ~ acc ++ levels.map RestQuote.entry := by
  intro levels
  induction levels with
  | nil => intro acc _ _; simp
  | cons q ls ih =>
    intro acc hnodup hfresh
    have hq : q.price ∉ acc.map Prod.fst := hfresh q (List.mem_cons_self _ _)
    rw [List.map_cons] at hnodup
    have hnd := List.nodup_cons.mp hnodup
    have hfresh₂ : ∀ r ∈ ls, r.price ∉ (insertLevel q.price q.quantity acc).map Prod.fst := by
      intro r hr hmem
      rcases mem_keys_insertLevel hmem with heq | hmem₂
      · exact hnd.1 (heq ▸ List.mem_map_of_mem RestQuote.price hr)
      · exact hfresh r (List.mem_cons_of_mem _ hr) hmem₂
    calc ls.foldl (fun side r => insertLevel r.price r.quantity side)
            (insertLevel q.price q.quantity acc)
        ~ insertLevel q.price q.quantity acc ++ ls.map RestQuote.entry :=
          ih _ hnd.2 hfresh₂
      _ ~ ((q.price, q.quantity) :: acc) ++ ls.map RestQuote.entry :=
          (insertLevel_perm_of_not_mem hq).append_right _
      _ ~ acc ++ (q.price, q.quantity) :: ls.map RestQuote.entry :=
          List.perm_middle.symm

theorem applySnapshotSide_perm (levels : List RestQuote)
    (h : (levels.map RestQuote.price).Nodup) :
    applySnapshotSide levels ~ levels.map RestQuote.entry := by
  simpa using foldl_insert_perm levels [] h (by simp)

theorem mem_applyDeltaQuote {x : ℚ × ℚ} {side : List (ℚ × ℚ)} {q : WsQuote}
    (hx : x ∈ applyDeltaQuote side q) :
    (q.quantity ≠ 0 ∧ x = (q.price, q.quantity)) ∨ x ∈ side := by
  simp only [applyDeltaQuote] at hx
  split_ifs at hx with h
  · exact Or.inr ((removeLevel_sublist _ _).subset hx)
  · rcases mem_insertLevel hx with heq | hmem
    · exact Or.inl ⟨h, heq⟩
    · exact Or.inr hmem

theorem mem_applyDeltaSide {x : ℚ × ℚ} :
    ∀ (levels : List WsQuote) (side : List (ℚ × ℚ)),
      x ∈ applyDeltaSide side levels →
      (∃ q ∈ levels, q.quantity ≠ 0 ∧ x = (q.price, q.quantity)) ∨ x ∈ side := by
  intro levels
  induction levels with
  | nil => intro side hx; exact Or.inr (by simpa [applyDeltaSide] using hx)
  | cons q ls ih =>
    intro side hx
    simp only [applyDeltaSide, List.foldl_cons] at hx
    rcases ih (applyDeltaQuote side q) hx with ⟨r, hr, hne, heq⟩ | hx₂
    · exact Or.inl ⟨r, List.mem_cons_of_mem _ hr, hne, heq⟩
    · rcases mem_applyDeltaQuote hx₂ with ⟨hne, heq⟩ | hmem
      · exact Or.inl ⟨q, List.mem_cons_self _ _, hne, heq⟩
      · exact Or.inr hmem

theorem deserializeSeq_isError {α β : Type} (f : α → Except String β) :
    ∀ (l : List α) (x : α), x ∈ l → isError (f x) = true →
      isError (deserializeSeq f l) = true := by
  intro l
  induction l with
  | nil => intro x hx; simp at hx
  | cons y ys ih =>
    intro x hx hbad
    simp only [deserializeSeq]
    rcases List.mem_cons.mp hx with rfl | hx
    · cases hfy : f x with
      | error e => simp [isError]
      | ok v => rw [hfy] at hbad; simp [isError] at hbad
    · cases hfy : f y with
      | error e => simp [isError]
      | ok v =>
        have hys := ih x hx hbad
        cases hds : deserializeSeq f ys with
        | error e => simp [hds, isError]
        | ok vs => rw [hds] at hys; simp [isError] at hys

theorem restQuoteDeserialize_isError {r : String × String}
    (h : parseF64 r.1 = none ∨ parseF64 r.2 = none) :
    isError (restQuoteDeserialize r) = true := by
  rcases h with h | h
  · simp [restQuoteDeserialize, f64_from_string, h, isError]
  · cases h₂ : parseF64 r.1 with
    | none => simp [restQuoteDeserialize, f64_from_string, h₂, isError]
    | some v => simp [restQuoteDeserialize, f64_from_string, h₂, h, isError]

theorem wsQuoteDeserialize_isError {w : List String}
    (h : ∃ p q t, w = p :: q :: t ∧ (parseF64 p = none ∨ parseF64 q = none)) :
    isError (wsQuoteDeserialize w) = true := by
  obtain ⟨p, q, t, rfl, hbad⟩ := h
  rcases hbad with hbad | hbad
  · simp [wsQuoteDeserialize, hbad, isError]
  · cases h₂ : parseF64 p with
    | none => simp [wsQuoteDeserialize, h₂, isError]
    | some v => simp [wsQuoteDeserialize, h₂, hbad, isError]

theorem snapshotDataDeserialize_isError {sb sa : List (String × String)}
    {r : String × String} (hm : r ∈ sb ∨ r ∈ sa)
    (hbad : isError (restQuoteDeserialize r) = true) :
    isError (snapshotDataDeserialize sb sa) = true := by
  simp only [snapshotDataDeserialize]
  rcases hm with hm | hm
  · have h := deserializeSeq_isError _ sb r hm hbad
    cases hds : deserializeSeq restQuoteDeserialize sb with
    | error e => simp [isError]
    | ok bs => rw [hds] at h; simp [isError] at h
  · cases hds : deserializeSeq restQuoteDeserialize sb with
    | error e => simp [isError]
    | ok bs =>
      have h := deserializeSeq_isError _ sa r hm hbad
      cases hds₂ : deserializeSeq restQuoteDeserialize sa with
      | error e => simp [isError]
      | ok aq => rw [hds₂] at h; simp [isError] at h

theorem orderBookDeltaDeserialize_isError {db da : List (List String)}
    {w : List String} (sym : String) (prevTs : ℕ) (hm : w ∈ db ∨ w ∈ da)
    (hbad : isError (wsQuoteDeserialize w) = true) :
    isError (orderBookDeltaDeserialize sym prevTs db da) = true := by
  simp only [orderBookDeltaDeserialize]
  rcases hm with hm | hm
  · have h := deserializeSeq_isError _ db w hm hbad
    cases hds : deserializeSeq wsQuoteDeserialize db with
    | error e => simp [isError]
    | ok bs => rw [hds] at h; simp [isError] at h
  · cases hds : deserializeSeq wsQuoteDeserialize db with
    | error e => simp [isError]
    | ok bs =>
      have h := deserializeSeq_isError _ da w hm hbad
      cases hds₂ : deserializeSeq wsQuoteDeserialize da with
      | error e => simp [isError]
      | ok aq => rw [hds₂] at h; simp [isError] at h

/-- C1: while reconciling, the decision on a received event is exactly
determined by comparing its predecessor sequence to the snapshot
sequence: strictly smaller drops the event leaving the book and the
reconciling state unchanged, equality applies the delta and moves to the
synced state, and strictly larger aborts with the book unchanged and no
further event processed. -/
theorem claim_c1 (snapTs : ℕ) (b : LocalOrderBook) (e : MarketEvent)
    (events : List MarketEvent) :
    (e.prev_ts < snapTs →
      processEvents snapTs .reconciling b (e :: events)
        = processEvents snapTs .reconciling b events)
    ∧ (e.prev_ts = snapTs →
      processEvents snapTs .reconciling b (e :: events)
        = processEvents snapTs .synced (b.apply_delta e.delta) events)
    ∧ (snapTs < e.prev_ts →
      processEvents snapTs .reconciling b (e :: events) = (.aborted, b)) := by
  refine ⟨fun h => ?_, fun h => ?_, fun h => ?_⟩
  · simp [processEvents, h]
  · simp [processEvents, h]
  · have h₁ : ¬ e.prev_ts < snapTs := not_lt_of_gt h
    have h₂ : e.prev_ts ≠ snapTs := ne_of_gt h
    simp [processEvents, h₁, h₂]

/-- Witness for C1 using the snapshot sequence 100 of the spec scenarios
and events with predecessor sequences 99, 100 and 101. -/
theorem claim_c1_witness :
    processEvents 100 .reconciling sampleBook [event99]
      = processEvents 100 .reconciling sampleBook []
    ∧ processEvents 100 .reconciling sampleBook [event100]
      = processEvents 100 .synced (sampleBook.apply_delta event100.delta) []
    ∧ processEvents 100 .reconciling sampleBook [event101] = (.aborted, sampleBook) :=
  ⟨(claim_c1 100 sampleBook event99 []).1 (by decide),
   (claim_c1 100 sampleBook event100 []).2.1 (by decide),
   (claim_c1 100 sampleBook event101 []).2.2 (by decide)⟩

/-- C8: once the state machine is synced, every subsequent event is
applied to the book in arrival order regardless of its sequence fields,
and no event is dropped and no abort happens afterwards: the run over any
event list ends synced with the book equal to the left fold of
apply_delta over the arrival-ordered deltas. -/
theorem claim_c8 (snapTs : ℕ) (b : LocalOrderBook) (events : List MarketEvent) :
    processEvents snapTs .synced b events
      = (.synced, events.foldl (fun bk e => bk.apply_delta e.delta) b) := by
  induction events generalizing b with
  | nil => rfl
  | cons e rest ih => simp [processEvents, ih]

/-- C10: under the guard of the drop branch the u64 subtraction of the
event predecessor sequence from the snapshot sequence does not underflow:
the wrapping result coincides with the exact difference. -/
theorem claim_c10 (snapTs prevTs : ℕ) (hguard : prevTs < snapTs)
    (hbound : snapTs < 2 ^ 64) :
    streamLag snapTs prevTs = snapTs - prevTs
    ∧ prevTs + streamLag snapTs prevTs = snapTs := by
  have hp : (2 : ℕ) ^ 64 = 18446744073709551616 := by norm_num
  simp only [streamLag, u64sub, hp] at *
  omega

/-- Witness for C10 at snapshot sequence 100 and event sequence 99. -/
theorem claim_c10_witness :
    streamLag 100 99 = 100 - 99 ∧ 99 + streamLag 100 99 = 100 :=
  claim_c10 100 99 (by decide) (by norm_num)

/-- C4: a delta level with quantity zero removes its price from the side
when present and leaves the side unchanged when absent, and a level with
any other quantity inserts or replaces the quantity at that price leaving
every other price untouched; the final conjunct ties the per-level
operation to apply_delta. -/
theorem claim_c4 (b : LocalOrderBook) (q : WsQuote) (hs : SortedSide b.bids) :
    (q.quantity = 0 →
      (∀ v, lookupLevel q.price b.bids = some v →
        lookupLevel q.price (applyDeltaQuote b.bids q) = none)
      ∧ (lookupLevel q.price b.bids = none → applyDeltaQuote b.bids q = b.bids))
    ∧ (q.quantity ≠ 0 →
      lookupLevel q.price (applyDeltaQuote b.bids q) = some q.quantity
      ∧ ∀ p, p ≠ q.price →
          lookupLevel p (applyDeltaQuote b.bids q) = lookupLevel p b.bids)
    ∧ (∀ sym t, (b.apply_delta ⟨sym, t, [q], []⟩).bids = applyDeltaQuote b.bids q) := by
  refine ⟨fun h0 => ⟨fun v _ => ?_, fun habs => ?_⟩,
          fun hne => ⟨?_, fun p hp => ?_⟩, fun sym t => rfl⟩
  · simp only [applyDeltaQuote, if_pos h0]
    exact lookupLevel_remove_self _ _ hs
  · simp only [applyDeltaQuote, if_pos h0]
    exact removeLevel_of_lookup_none _ habs
  · simp only [applyDeltaQuote, if_neg hne]
    exact lookupLevel_insert_self _ _ _
  · simp only [applyDeltaQuote, if_neg hne]
    exact lookupLevel_insert_ne hp _ _

/-- Witness for C4 on the scenario book: clearing the present bid 100,
clearing the absent price 50 as a no-op, and inserting quantity 2 at a
new price. -/
theorem claim_c4_witness :
    lookupLevel 100 (applyDeltaQuote sampleBook.bids ⟨100, 0⟩) = none
    ∧ applyDeltaQuote sampleBook.bids ⟨50, 0⟩ = sampleBook.bids
    ∧ lookupLevel 99 (applyDeltaQuote sampleBook.bids ⟨99, 2⟩) = some 2 :=
  ⟨((claim_c4 sampleBook ⟨100, 0⟩ (by decide)).1 rfl).1 1 (by decide),
   ((claim_c4 sampleBook ⟨50, 0⟩ (by decide)).1 rfl).2 (by decide),
   ((claim_c4 sampleBook ⟨99, 2⟩ (by decide)).2.1 (by decide)).1⟩

/-- C9: the two sides of a delta are processed independently, each side
of the book computed only from the corresponding side of the delta, so a
delta whose level list for one side is empty leaves that side of the book
completely unchanged. -/
theorem claim_c9 (b : LocalOrderBook) (d : OrderBookDelta) :
    (d.bids = [] → (b.apply_delta d).bids = b.bids)
    ∧ (d.asks = [] → (b.apply_delta d).asks = b.asks)
    ∧ (b.apply_delta d).bids = applyDeltaSide b.bids d.bids
    ∧ (b.apply_delta d).asks = applyDeltaSide b.asks d.asks := by
  refine ⟨fun h => ?_, fun h => ?_, rfl, rfl⟩
  · simp [LocalOrderBook.apply_delta, h, applyDeltaSide]
  · simp [LocalOrderBook.apply_delta, h, applyDeltaSide]

/-- Witness for C9: an ask-only delta leaves the bid side of the scenario
book unchanged, and a bid-only delta leaves the ask side unchanged. -/
theorem claim_c9_witness :
    (sampleBook.apply_delta ⟨"PERP_ETH_USDT", 100, [], [⟨101, 0⟩]⟩).bids
      = sampleBook.bids
    ∧ (sampleBook.apply_delta ⟨"PERP_ETH_USDT", 100, [⟨100, 2⟩], []⟩).asks
      = sampleBook.asks :=
  ⟨(claim_c9 sampleBook ⟨"PERP_ETH_USDT", 100, [], [⟨101, 0⟩]⟩).1 rfl,
   (claim_c9 sampleBook ⟨"PERP_ETH_USDT", 100, [⟨100, 2⟩], []⟩).2.1 rfl⟩

/-- C6: for every book state and every n, the top bid query returns at
most n entries in strictly descending price order and the top ask query
at most n entries in strictly ascending price order, returning exactly
min n entries of the side, hence fewer than n on a short or empty side
and never an error. -/
theorem claim_c6 (b : LocalOrderBook) (n : ℕ)
    (hb : SortedSide b.bids) (ha : SortedSide b.asks) :
    ((topBids b n).length ≤ n
      ∧ (topBids b n).Pairwise (fun x y => y.1 < x.1)
      ∧ (topBids b n).length = min n b.bids.length)
    ∧ ((topAsks b n).length ≤ n
      ∧ (topAsks b n).Pairwise (fun x y => x.1 < y.1)
      ∧ (topAsks b n).length = min n b.asks.length) := by
  refine ⟨⟨?_, ?_, ?_⟩, ⟨?_, ?_, ?_⟩⟩
  · simp [topBids]
  · exact (List.pairwise_reverse.mpr hb).sublist (List.take_sublist n _)
  · simp [topBids, List.length_take]
  · simp [topAsks]
  · exact ha.sublist (List.take_sublist n _)
  · simp [topAsks, List.length_take]

/-- Counterexample to C2 as stated: the book obtained by applying a
snapshot holding a zero-quantity level is reachable from the empty book
by one apply_snapshot, yet it stores a level whose quantity is not
strictly positive, because apply_snapshot inserts unconditionally. -/
theorem claim_c2_counterexample :
    Reachable bookZeroQty ∧ ¬ ∀ x ∈ bookZeroQty.bids, 0 < x.2 :=
  ⟨Reachable.snapshot snapshotZeroQty, by decide⟩

/-- C2 amended: when every snapshot level has strictly positive quantity
and every delta level has nonnegative quantity, every level stored in a
reachable book has strictly positive quantity. -/
theorem claim_c2 (b : LocalOrderBook) (h : PosReachable b) :
    (∀ x ∈ b.bids, 0 < x.2) ∧ (∀ x ∈ b.asks, 0 < x.2) := by
  induction h with
  | snapshot d hb ha =>
    constructor
    · intro x hx
      simp only [LocalOrderBook.apply_snapshot] at hx
      obtain ⟨q, hq, rfl⟩ := mem_applySnapshotSide hx
      exact hb q hq
    · intro x hx
      simp only [LocalOrderBook.apply_snapshot] at hx
      obtain ⟨q, hq, rfl⟩ := mem_applySnapshotSide hx
      exact ha q hq
  | delta b d hb ha hr ih =>
    constructor
    · intro x hx
      simp only [LocalOrderBook.apply_delta] at hx
      rcases mem_applyDeltaSide d.bids b.bids hx with ⟨q, hq, hne, rfl⟩ | hx₂
      · exact lt_of_le_of_ne (hb q hq) (Ne.symm hne)
      · exact ih.1 x hx₂
    · intro x hx
      simp only [LocalOrderBook.apply_delta] at hx
      rcases mem_applyDeltaSide d.asks b.asks hx with ⟨q, hq, hne, rfl⟩ | hx₂
      · exact lt_of_le_of_ne (ha q hq) (Ne.symm hne)
      · exact ih.2 x hx₂

/-- Witness for C2 on the scenario snapshot, whose quantities are 1. -/
theorem claim_c2_witness :
    (∀ x ∈ sampleBook.bids, 0 < x.2) ∧ (∀ x ∈ sampleBook.asks, 0 < x.2) :=
  claim_c2 sampleBook (PosReachable.snapshot sampleSnapshot (by decide) (by decide))

/-- Counterexample to C5 as stated: a snapshot whose bid side repeats a
price is not reproduced exactly, because the later quantity overwrites
the earlier one, so one of the snapshot levels is missing from the book
afterward. -/
theorem claim_c5_counterexample :
    ((100 : ℚ), (1 : ℚ)) ∈ snapshotDupPrice.bids.map RestQuote.entry
    ∧ ((100 : ℚ), (1 : ℚ)) ∉ (bookBefore.apply_snapshot snapshotDupPrice).bids := by
  decide

/-- C5 amended: apply_snapshot fully discards the prior state, so a price
present before the call but absent from the snapshot is absent afterward;
and when the snapshot prices of a side are pairwise distinct the side
holds exactly the snapshot levels afterward. -/
theorem claim_c5 (b : LocalOrderBook) (sd : SnapshotData) :
    (∀ p : ℚ, lookupLevel p b.bids ≠ none → p ∉ sd.bids.map RestQuote.price →
      lookupLevel p (b.apply_snapshot sd).bids = none)
    ∧ (∀ p : ℚ, lookupLevel p b.asks ≠ none → p ∉ sd.asks.map RestQuote.price →
      lookupLevel p (b.apply_snapshot sd).asks = none)
    ∧ ((sd.bids.map RestQuote.price).Nodup →
      (b.apply_snapshot sd).bids ~ sd.bids.map RestQuote.entry)
    ∧ ((sd.asks.map RestQuote.price).Nodup →
      (b.apply_snapshot sd).asks ~ sd.asks.map RestQuote.entry) := by
  refine ⟨fun p _ hp => ?_, fun p _ hp => ?_, fun h => ?_, fun h => ?_⟩
  · apply lookupLevel_eq_none
    intro x hx
    obtain ⟨q, hq, rfl⟩ := mem_applySnapshotSide hx
    simp only [RestQuote.entry]
    intro hcontra
    exact hp (hcontra ▸ List.mem_map_of_mem RestQuote.price hq)
  · apply lookupLevel_eq_none
    intro x hx
    obtain ⟨q, hq, rfl⟩ := mem_applySnapshotSide hx
    simp only [RestQuote.entry]
    intro hcontra
    exact hp (hcontra ▸ List.mem_map_of_mem RestQuote.price hq)
  · exact applySnapshotSide_perm sd.bids h
  · exact applySnapshotSide_perm sd.asks h

/-- Witness for C5: applying the scenario snapshot on top of a book with
a bid at price 50 removes that price and leaves exactly the snapshot
levels. -/
theorem claim_c5_witness :
    lookupLevel 50 (bookBefore.apply_snapshot sampleSnapshot).bids = none
    ∧ (bookBefore.apply_snapshot sampleSnapshot).bids
        ~ sampleSnapshot.bids.map RestQuote.entry :=
  ⟨(claim_c5 bookBefore sampleSnapshot).1 50 (by decide) (by decide),
   (claim_c5 bookBefore sampleSnapshot).2.2.1 (by decide)⟩

/-- Counterexample to C7 as stated: after applying a snapshot whose bid
side repeats a price, the top bid levels are not the snapshot levels in
any order, because the book kept only the later of the two levels. -/
theorem claim_c7_counterexample :
    ¬ topBids (bookBefore.apply_snapshot snapshotDupPrice) 5
        ~ snapshotDupPrice.bids.map RestQuote.entry := by
  decide

/-- C7 amended: for a snapshot whose per-side prices are pairwise
distinct and a cutoff no smaller than the side, applying the snapshot and
querying the top levels reproduces exactly the snapshot levels of that
side, in strictly descending price order for bids and strictly ascending
order for asks. -/
theorem claim_c7 (b : LocalOrderBook) (sd : SnapshotData) (n : ℕ)
    (hb : (sd.bids.map RestQuote.price).Nodup)
    (ha : (sd.asks.map RestQuote.price).Nodup)
    (hnb : sd.bids.length ≤ n) (hna : sd.asks.length ≤ n) :
    (topBids (b.apply_snapshot sd) n ~ sd.bids.map RestQuote.entry
      ∧ (topBids (b.apply_snapshot sd) n).Pairwise (fun x y => y.1 < x.1))
    ∧ (topAsks (b.apply_snapshot sd) n ~ sd.asks.map RestQuote.entry
      ∧ (topAsks (b.apply_snapshot sd) n).Pairwise (fun x y => x.1 < y.1)) := by
  have hpb := applySnapshotSide_perm sd.bids hb
  have hpa := applySnapshotSide_perm sd.asks ha
  have hlb : (applySnapshotSide sd.bids).reverse.length ≤ n := by
    rw [List.length_reverse, hpb.length_eq, List.length_map]; exact hnb
  have hla : (applySnapshotSide sd.asks).length ≤ n := by
    rw [hpa.length_eq, List.length_map]; exact hna
  have htb : topBids (b.apply_snapshot sd) n = (applySnapshotSide sd.bids).reverse :=
    List.take_of_length_le hlb
  have hta : topAsks (b.apply_snapshot sd) n = applySnapshotSide sd.asks :=
    List.take_of_length_le hla
  refine ⟨⟨?_, ?_⟩, ⟨?_, ?_⟩⟩
  · rw [htb]; exact (List.reverse_perm _).trans hpb
  · rw [htb]; exact List.pairwise_reverse.mpr (applySnapshotSide_sorted sd.bids)
  · rw [hta]; exact hpa
  · rw [hta]; exact applySnapshotSide_sorted sd.asks

/-- Witness for C7 on the scenario snapshot with cutoff 5. -/
theorem claim_c7_witness :
    (topBids (LocalOrderBook.new.apply_snapshot sampleSnapshot) 5
        ~ sampleSnapshot.bids.map RestQuote.entry
      ∧ (topBids (LocalOrderBook.new.apply_snapshot sampleSnapshot) 5).Pairwise
          (fun x y => y.1 < x.1))
    ∧ (topAsks (LocalOrderBook.new.apply_snapshot sampleSnapshot) 5
        ~ sampleSnapshot.asks.map RestQuote.entry
      ∧ (topAsks (LocalOrderBook.new.apply_snapshot sampleSnapshot) 5).Pairwise
          (fun x y => x.1 < y.1)) :=
  claim_c7 LocalOrderBook.new sampleSnapshot 5 (by decide) (by decide)
    (by decide) (by decide)

/-- Counterexample to C3 as stated: an object-encoded snapshot record
with non-numeric price fails the whole snapshot deserialization, not only
the individual record, even with a well-formed record beside it. -/
theorem claim_c3_counterexample :
    parseF64 "abc" = none
    ∧ isError (restQuoteDeserialize ("abc", "1")) = true
    ∧ isError (snapshotDataDeserialize [("abc", "1"), ("2", "3")] []) = true := by
  decide

/-- C3 amended: non-numeric price or quantity content in a quote record
fails the whole containing deserialization in both encodings: the whole
snapshot for object-encoded quotes and the whole frame for two-element
array-encoded delta quotes. -/
theorem claim_c3 (sb sa : List (String × String)) (db da : List (List String))
    (r : String × String) (w : List String) (sym : String) (prevTs : ℕ)
    (hrm : r ∈ sb ∨ r ∈ sa)
    (hrbad : parseF64 r.1 = none ∨ parseF64 r.2 = none)
    (hwm : w ∈ db ∨ w ∈ da)
    (hwbad : ∃ p q t, w = p :: q :: t ∧ (parseF64 p = none ∨ parseF64 q = none)) :
    isError (snapshotDataDeserialize sb sa) = true
    ∧ isError (orderBookDeltaDeserialize sym prevTs db da) = true :=
  ⟨snapshotDataDeserialize_isError hrm (restQuoteDeserialize_isError hrbad),
   orderBookDeltaDeserialize_isError sym prevTs hwm (wsQuoteDeserialize_isError hwbad)⟩

/-- Witness for C3 on concrete malformed records. -/
theorem claim_c3_witness :
    isError (snapshotDataDeserialize [("abc", "1"), ("2", "3")] []) = true
    ∧ isError (orderBookDeltaDeserialize "PERP_ETH_USDT" 100
        [["2", "x"], ["1", "1"]] []) = true :=
  claim_c3 [("abc", "1"), ("2", "3")] [] [["2", "x"], ["1", "1"]] []
    ("abc", "1") ["2", "x"] "PERP_ETH_USDT" 100
    (Or.inl (by decide)) (Or.inl (by decide))
    (Or.inl (by decide)) ⟨"2", "x", [], rfl, Or.inr (by decide)⟩

/-- Witness for C6 on the scenario book with n cut to 5. -/
theorem claim_c6_witness :
    ((topBids sampleBook 5).length ≤ 5
      ∧ (topBids sampleBook 5).Pairwise (fun x y => y.1 < x.1)
      ∧ (topBids sampleBook 5).length = min 5 sampleBook.bids.length)
    ∧ ((topAsks sampleBook 5).length ≤ 5
      ∧ (topAsks sampleBook 5).Pairwise (fun x y => x.1 < y.1)
      ∧ (topAsks sampleBook 5).length = min 5 sampleBook.asks.length) :=
  claim_c6 sampleBook 5 (by decide) (by decide)

end Woox
